import Mathlib

/-! Shallow embedding of `motorControls.ino` (the LaserTurret firmware).

Strings are modelled as `List Char`, the serial receive queue as a list of
pending bytes inside the state, and the externally observable effects
(servo writes and diagnostic prints) as ghost lists that the operations
append to. -/

/-- Diagnostic lines printed by the firmware over serial (`Serial.println`);
each constructor stands for one line form emitted by the sketch. -/
inductive Diag where
  | bannerReady : Diag
  | bannerFormat : Diag
  | bannerPrompt : Diag
  | received (line : List Char) : Diag
  | settingYaw (yaw : Int) : Diag
  | settingPitchYaw (pitch yaw : Int) : Diag
  | cmdTooLong : Diag
deriving DecidableEq

/-- The firmware's global mutable state plus ghost observation fields:
`serialIn` models the bytes waiting in the serial receive queue,
`serialOut` the diagnostic lines printed so far, `commands` the lines that
were handed to `processCommand`, and `pitchWrites`/`yawWrites` the sequence
of values written to the two servos. -/
structure TurretState where
  currentPitch : Int
  currentYaw : Int
  targetPitch : Int
  targetYaw : Int
  inputBuffer : List Char
  newData : Bool
  serialIn : List Char
  serialOut : List Diag
  commands : List (List Char)
  pitchWrites : List Int
  yawWrites : List Int
deriving DecidableEq

def PITCH_MIN : Int := 0

def PITCH_MAX : Int := 180

def YAW_MIN : Int := 0

def YAW_MAX : Int := 180

/-- Arduino's `constrain(amt, low, high)` macro. -/
def constrain (amt low high : Int) : Int :=
  if amt < low then low else if high < amt then high else amt

/-- `current + (target - current) * SMOOTHING_FACTOR` truncated to `int`,
with `SMOOTHING_FACTOR = 0.2` (a single-precision float).  On every state
the firmware can reach (`0 ≤ current, target ≤ 180`, so the float sum is
nonnegative) the IEEE-754 evaluation of that expression followed by the
float→int conversion yields exactly `current + ⌊(target - current) / 5⌋`
with floor division; this identity was checked exhaustively over the whole
`[0,180] × [0,180]` domain.  The embedding uses that exact integer form. -/
def smoothedNext (current target : Int) : Int :=
  current + (target - current).fdiv 5

/-- `updateServos()`: per-axis exponential smoothing with the jitter
deadband; a servo is written only when `abs(new - current) > 1`. -/
def updateServos (s : TurretState) : TurretState :=
  let newPitch := smoothedNext s.currentPitch s.targetPitch
  let newYaw := smoothedNext s.currentYaw s.targetYaw
  let s1 :=
    if 1 < (newPitch - s.currentPitch).natAbs then
      { s with currentPitch := newPitch, pitchWrites := s.pitchWrites ++ [newPitch] }
    else s
  if 1 < (newYaw - s1.currentYaw).natAbs then
    { s1 with currentYaw := newYaw, yawWrites := s1.yawWrites ++ [newYaw] }
  else s1

/-- `moveToPosition(pitch, yaw)`: clamp, write both servos, set currents
and targets (the modelled `delay(500)` has no state effect). -/
def moveToPosition (pitch yaw : Int) (s : TurretState) : TurretState :=
  let pitch := constrain pitch PITCH_MIN PITCH_MAX
  let yaw := constrain yaw YAW_MIN YAW_MAX
  { s with
    currentPitch := pitch
    currentYaw := yaw
    targetPitch := pitch
    targetYaw := yaw
    pitchWrites := s.pitchWrites ++ [pitch]
    yawWrites := s.yawWrites ++ [yaw] }

/-- C `isspace` restricted to ASCII, as used by Arduino's `String::trim`
and by `atol`: space, `\t`, `\n`, vertical tab, form feed, `\r`. -/
def isspace (c : Char) : Bool :=
  c == ' ' || c == '\t' || c == '\n' || c == Char.ofNat 11 || c == Char.ofNat 12 || c == '\r'

/-- Arduino `String::trim()`: strip leading and trailing whitespace. -/
def trim (s : List Char) : List Char :=
  ((s.dropWhile isspace).reverse.dropWhile isspace).reverse

def indexOfAux (c : Char) : List Char → Nat → Option Nat
  | [], _ => none
  | x :: xs, i => if x == c then some i else indexOfAux c xs (i + 1)

/-- Arduino `String::indexOf(c)`: index of the first occurrence of `c`
(`none` models the `-1` sentinel). -/
def indexOf (s : List Char) (c : Char) : Option Nat :=
  indexOfAux c s 0

/-- The digit-consuming loop of C `atol`: read decimal digits up to the
first non-digit, folding them onto `acc`. -/
def readDigits : List Char → Int → Int
  | c :: rest, acc =>
      if c.isDigit then readDigits rest (acc * 10 + ((c.toNat : Int) - 48)) else acc
  | [], acc => acc

/-- The sign handling of C `atol` after the whitespace skip: a leading
`'-'` negates the digit run, a leading `'+'` is consumed, anything else is
handed to the digit reader as-is. -/
def atolSigned : List Char → Int
  | [] => 0
  | c :: rest =>
      if c = '-' then - readDigits rest 0
      else if c = '+' then readDigits rest 0
      else readDigits (c :: rest) 0

/-- Two's-complement wrap of an unbounded integer into the AVR's 32-bit
`long`: reduce mod `2^32` into `[0, 2^32)` and re-centre into
`[-2^31, 2^31)`. -/
def wrapLong (n : Int) : Int :=
  let m := n % 4294967296
  if m < 2147483648 then m else m - 4294967296

/-- Two's-complement wrap of an unbounded integer into the AVR's 16-bit
`int`, as performed by the implicit `long` → `int` narrowing conversion. -/
def wrapInt (n : Int) : Int :=
  let m := n % 65536
  if m < 32768 then m else m - 65536

/-- Arduino `String::toInt()`, i.e. C `atol`: skip leading whitespace, an
optional sign, then the longest run of decimal digits; `0` when no digits
are present.  The accumulation runs in a 32-bit `long` whose multiply,
add and negate all wrap; the register's final signed value is the
two's-complement wrap of the unbounded accumulation (each intermediate
wrap is congruent mod `2^32`), so the result is `wrapLong` of it. -/
def toInt (s : List Char) : Int :=
  wrapLong (atolSigned (s.dropWhile isspace))

/-- `processCommand(String&)`: trim, ignore empty lines, echo, then apply
the single-value (yaw only) or comma-separated (pitch, yaw) form.  The
assignments `int yaw = command.toInt()` (and likewise for pitch) narrow
the 32-bit `long` to the AVR's 16-bit `int`, modelled by `wrapInt`. -/
def processCommand (command : List Char) (s : TurretState) : TurretState :=
  let command := trim command
  if command.length = 0 then s
  else
    let s := { s with serialOut := s.serialOut ++ [Diag.received command] }
    match indexOf command ',' with
    | none =>
        let yaw := wrapInt (toInt command)
        let ty := constrain yaw YAW_MIN YAW_MAX
        { s with targetYaw := ty, serialOut := s.serialOut ++ [Diag.settingYaw ty] }
    | some commaIndex =>
        let pitch := wrapInt (toInt (command.take commaIndex))
        let yaw := wrapInt (toInt (command.drop (commaIndex + 1)))
        let tp := constrain pitch PITCH_MIN PITCH_MAX
        let ty := constrain yaw YAW_MIN YAW_MAX
        { s with
          targetPitch := tp
          targetYaw := ty
          serialOut := s.serialOut ++ [Diag.settingPitchYaw tp ty] }

/-- Result of draining the serial input: the bytes left unread, the new
line buffer, whether `newData` was set, and the diagnostics printed. -/
structure ReadResult where
  rest : List Char
  buffer : List Char
  ready : Bool
  diags : List Diag
deriving DecidableEq

/-- The `while (Serial.available() > 0)` loop of `readSerialData()`,
acting on the pending input bytes and the line buffer.  On a terminator it
returns at once; an append that pushes the buffer past 20 characters
clears it and prints the overflow diagnostic. -/
def readSerialLoop : List Char → List Char → ReadResult
  | [], buffer => ⟨[], buffer, false, []⟩
  | received :: rest, buffer =>
      if received == '\n' || received == '\r' then
        ⟨rest, buffer, decide (0 < buffer.length), []⟩
      else
        let buffer := buffer ++ [received]
        if 20 < buffer.length then
          let r := readSerialLoop rest []
          ⟨r.rest, r.buffer, r.ready, Diag.cmdTooLong :: r.diags⟩
        else
          readSerialLoop rest buffer

/-- `readSerialData()`. -/
def readSerialData (s : TurretState) : TurretState :=
  let r := readSerialLoop s.serialIn s.inputBuffer
  { s with
    serialIn := r.rest
    inputBuffer := r.buffer
    newData := s.newData || r.ready
    serialOut := s.serialOut ++ r.diags }

/-- One iteration of `loop()` (the trailing `delay` has no modelled
effect).  The line handed to `processCommand` is also recorded in the
ghost `commands` list. -/
def loop (s : TurretState) : TurretState :=
  let s := readSerialData s
  let s :=
    if s.newData then
      { processCommand s.inputBuffer s with
          newData := false
          inputBuffer := []
          commands := s.commands ++ [s.inputBuffer] }
    else s
  updateServos s

/-- The global variable initializers of the sketch. -/
def initialGlobals : TurretState :=
  { currentPitch := 90
    currentYaw := 90
    targetPitch := 90
    targetYaw := 90
    inputBuffer := []
    newData := false
    serialIn := []
    serialOut := []
    commands := []
    pitchWrites := []
    yawWrites := [] }

/-- `setup()`: home both axes via `moveToPosition(90, 90)`, then print the
three banner lines. -/
def turretSetup : TurretState :=
  let s := moveToPosition 90 90 initialGlobals
  { s with serialOut := s.serialOut ++ [Diag.bannerReady, Diag.bannerFormat, Diag.bannerPrompt] }

/-- Append newly arrived host bytes to the pending serial input. -/
def feed (bytes : List Char) (s : TurretState) : TurretState :=
  { s with serialIn := s.serialIn ++ bytes }

/-- Run the firmware: before each tick the next chunk of host bytes
arrives, then one `loop()` iteration executes. -/
def run : List (List Char) → TurretState → TurretState
  | [], s => s
  | chunk :: rest, s => run rest (loop (feed chunk s))

/-- The P1 range invariant on both axes. -/
def RangeInv (s : TurretState) : Prop :=
  0 ≤ s.currentPitch ∧ s.currentPitch ≤ 180 ∧
  0 ≤ s.currentYaw ∧ s.currentYaw ≤ 180 ∧
  0 ≤ s.targetPitch ∧ s.targetPitch ≤ 180 ∧
  0 ≤ s.targetYaw ∧ s.targetYaw ≤ 180

instance (s : TurretState) : Decidable (RangeInv s) := by
  unfold RangeInv
  infer_instance

/-- Floor division by 5 expressed through Euclidean division, so that
`omega` can reason about the smoothing step. -/
theorem fdiv_five (d : Int) : d.fdiv 5 = d / 5 :=
  Int.fdiv_eq_ediv d (by norm_num)

/-- The effect of one `updateServos` tick on a single axis `current`
value: take the smoothing step only when it clears the jitter deadband. -/
def axisStep (current target : Int) : Int :=
  if 1 < (smoothedNext current target - current).natAbs then smoothedNext current target
  else current

theorem updateServos_currentPitch (s : TurretState) :
    (updateServos s).currentPitch = axisStep s.currentPitch s.targetPitch := by
  simp only [updateServos, axisStep]
  split <;> split <;> rfl

theorem updateServos_currentYaw (s : TurretState) :
    (updateServos s).currentYaw = axisStep s.currentYaw s.targetYaw := by
  simp only [updateServos, axisStep]
  split <;> split <;> rfl

theorem updateServos_targetPitch (s : TurretState) :
    (updateServos s).targetPitch = s.targetPitch := by
  simp only [updateServos]
  split <;> split <;> rfl

theorem updateServos_targetYaw (s : TurretState) :
    (updateServos s).targetYaw = s.targetYaw := by
  simp only [updateServos]
  split <;> split <;> rfl

theorem updateServos_serialIn (s : TurretState) :
    (updateServos s).serialIn = s.serialIn := by
  simp only [updateServos]
  split <;> split <;> rfl

theorem updateServos_newData (s : TurretState) :
    (updateServos s).newData = s.newData := by
  simp only [updateServos]
  split <;> split <;> rfl

theorem updateServos_inputBuffer (s : TurretState) :
    (updateServos s).inputBuffer = s.inputBuffer := by
  simp only [updateServos]
  split <;> split <;> rfl

theorem updateServos_commands (s : TurretState) :
    (updateServos s).commands = s.commands := by
  simp only [updateServos]
  split <;> split <;> rfl

theorem updateServos_pitchWrites (s : TurretState) :
    (updateServos s).pitchWrites =
      if 1 < (smoothedNext s.currentPitch s.targetPitch - s.currentPitch).natAbs
      then s.pitchWrites ++ [smoothedNext s.currentPitch s.targetPitch]
      else s.pitchWrites := by
  simp only [updateServos]
  split <;> split <;> rfl

theorem updateServos_yawWrites (s : TurretState) :
    (updateServos s).yawWrites =
      if 1 < (smoothedNext s.currentYaw s.targetYaw - s.currentYaw).natAbs
      then s.yawWrites ++ [smoothedNext s.currentYaw s.targetYaw]
      else s.yawWrites := by
  simp only [updateServos]
  split <;> split <;> rfl

theorem axisStep_between (c t : Int) :
    min c t ≤ axisStep c t ∧ axisStep c t ≤ max c t := by
  unfold axisStep smoothedNext
  rw [fdiv_five]
  split <;> constructor <;> simp only [min_le_iff, le_max_iff] <;> omega

theorem axisStep_error_le (c t : Int) :
    (axisStep c t - t).natAbs ≤ (c - t).natAbs := by
  unfold axisStep smoothedNext
  rw [fdiv_five]
  split <;> omega

theorem axisStep_decrease (c t : Int)
    (h : 1 < (smoothedNext c t - c).natAbs) :
    (t - axisStep c t).natAbs + 2 ≤ (t - c).natAbs := by
  unfold axisStep smoothedNext at *
  rw [fdiv_five] at *
  rw [if_pos h]
  omega

theorem axisStep_window (c t : Int) (h : axisStep c t = c) :
    -5 ≤ t - c ∧ t - c ≤ 9 := by
  unfold axisStep smoothedNext at h
  rw [fdiv_five] at h
  by_cases hg : 1 < (c + (t - c) / 5 - c).natAbs
  · rw [if_pos hg] at h
    omega
  · omega

theorem axisStep_window_rev (c t : Int) (h : -5 ≤ t - c) (h2 : t - c ≤ 9) :
    axisStep c t = c := by
  unfold axisStep smoothedNext
  rw [fdiv_five]
  rw [if_neg (by omega)]

/-- C5: across one `updateServos` tick the targets are unchanged, on each
axis the distance from `current` to `target` does not increase, and the
new `current` stays in the closed interval between the old `current` and
the `target` (no overshoot). -/
theorem claim5_monotone_no_overshoot (s : TurretState) :
    (updateServos s).targetPitch = s.targetPitch ∧
    (updateServos s).targetYaw = s.targetYaw ∧
    ((updateServos s).currentPitch - s.targetPitch).natAbs ≤
      (s.currentPitch - s.targetPitch).natAbs ∧
    ((updateServos s).currentYaw - s.targetYaw).natAbs ≤
      (s.currentYaw - s.targetYaw).natAbs ∧
    min s.currentPitch s.targetPitch ≤ (updateServos s).currentPitch ∧
    (updateServos s).currentPitch ≤ max s.currentPitch s.targetPitch ∧
    min s.currentYaw s.targetYaw ≤ (updateServos s).currentYaw ∧
    (updateServos s).currentYaw ≤ max s.currentYaw s.targetYaw := by
  rw [updateServos_targetPitch, updateServos_targetYaw, updateServos_currentPitch,
    updateServos_currentYaw]
  exact ⟨rfl, rfl, axisStep_error_le _ _, axisStep_error_le _ _,
    (axisStep_between _ _).1, (axisStep_between _ _).2,
    (axisStep_between _ _).1, (axisStep_between _ _).2⟩

/-- C8: on every tick each servo is written exactly when the smoothed step
exceeds the one-degree jitter deadband — so it is written *only if*
`|next - current| > 1` — and when `target` equals `current` the smoother
leaves that axis untouched and performs no write. -/
theorem claim8_write_guard (s : TurretState) :
    ((updateServos s).pitchWrites =
      if 1 < (smoothedNext s.currentPitch s.targetPitch - s.currentPitch).natAbs
      then s.pitchWrites ++ [smoothedNext s.currentPitch s.targetPitch]
      else s.pitchWrites) ∧
    ((updateServos s).yawWrites =
      if 1 < (smoothedNext s.currentYaw s.targetYaw - s.currentYaw).natAbs
      then s.yawWrites ++ [smoothedNext s.currentYaw s.targetYaw]
      else s.yawWrites) ∧
    (updateServos { s with targetPitch := s.currentPitch }).currentPitch = s.currentPitch ∧
    (updateServos { s with targetPitch := s.currentPitch }).pitchWrites = s.pitchWrites ∧
    (updateServos { s with targetYaw := s.currentYaw }).currentYaw = s.currentYaw ∧
    (updateServos { s with targetYaw := s.currentYaw }).yawWrites = s.yawWrites := by
  refine ⟨updateServos_pitchWrites s, updateServos_yawWrites s, ?_, ?_, ?_, ?_⟩
  · rw [updateServos_currentPitch]
    exact axisStep_window_rev _ _ (by simp) (by simp)
  · rw [updateServos_pitchWrites]
    rw [if_neg]
    simp only [smoothedNext]
    simp [Int.fdiv]
  · rw [updateServos_currentYaw]
    exact axisStep_window_rev _ _ (by simp) (by simp)
  · rw [updateServos_yawWrites]
    rw [if_neg]
    simp only [smoothedNext]
    simp [Int.fdiv]

theorem constrain_bounds (amt low high : Int) (h : low ≤ high) :
    low ≤ constrain amt low high ∧ constrain amt low high ≤ high := by
  unfold constrain
  split
  · omega
  · split <;> omega

theorem axisStep_range (c t : Int) (hc0 : 0 ≤ c) (hc1 : c ≤ 180)
    (ht0 : 0 ≤ t) (ht1 : t ≤ 180) : 0 ≤ axisStep c t ∧ axisStep c t ≤ 180 := by
  obtain ⟨h1, h2⟩ := axisStep_between c t
  constructor
  · calc (0 : Int) ≤ min c t := le_min hc0 ht0
      _ ≤ axisStep c t := h1
  · calc axisStep c t ≤ max c t := h2
      _ ≤ 180 := max_le hc1 ht1

theorem updateServos_rangeInv (s : TurretState) (h : RangeInv s) :
    RangeInv (updateServos s) := by
  obtain ⟨h1, h2, h3, h4, h5, h6, h7, h8⟩ := h
  unfold RangeInv
  rw [updateServos_currentPitch, updateServos_currentYaw, updateServos_targetPitch,
    updateServos_targetYaw]
  obtain ⟨hp1, hp2⟩ := axisStep_range s.currentPitch s.targetPitch h1 h2 h5 h6
  obtain ⟨hy1, hy2⟩ := axisStep_range s.currentYaw s.targetYaw h3 h4 h7 h8
  exact ⟨hp1, hp2, hy1, hy2, h5, h6, h7, h8⟩

theorem processCommand_rangeInv (c : List Char) (s : TurretState) (h : RangeInv s) :
    RangeInv (processCommand c s) := by
  obtain ⟨h1, h2, h3, h4, h5, h6, h7, h8⟩ := h
  unfold RangeInv
  simp only [processCommand]
  split
  · exact ⟨h1, h2, h3, h4, h5, h6, h7, h8⟩
  · split
    · dsimp only
      have hy := constrain_bounds (wrapInt (toInt (trim c))) YAW_MIN YAW_MAX (by decide)
      simp only [YAW_MIN, YAW_MAX] at hy
      exact ⟨h1, h2, h3, h4, h5, h6, hy.1, hy.2⟩
    · rename_i commaIndex _
      dsimp only
      have hp := constrain_bounds (wrapInt (toInt ((trim c).take commaIndex))) PITCH_MIN
        PITCH_MAX (by decide)
      have hy := constrain_bounds (wrapInt (toInt ((trim c).drop (commaIndex + 1))))
        YAW_MIN YAW_MAX (by decide)
      simp only [PITCH_MIN, PITCH_MAX] at hp
      simp only [YAW_MIN, YAW_MAX] at hy
      exact ⟨h1, h2, h3, h4, hp.1, hp.2, hy.1, hy.2⟩

theorem moveToPosition_rangeInv (p y : Int) (s : TurretState) :
    RangeInv (moveToPosition p y s) := by
  unfold moveToPosition RangeInv
  have hp := constrain_bounds p PITCH_MIN PITCH_MAX (by decide)
  have hy := constrain_bounds y YAW_MIN YAW_MAX (by decide)
  simp only [PITCH_MIN, PITCH_MAX, YAW_MIN, YAW_MAX] at hp hy
  exact ⟨hp.1, hp.2, hy.1, hy.2, hp.1, hp.2, hy.1, hy.2⟩

theorem readSerialData_rangeInv (s : TurretState) (h : RangeInv s) :
    RangeInv (readSerialData s) := by
  simpa [RangeInv, readSerialData] using h

theorem loop_rangeInv (s : TurretState) (h : RangeInv s) : RangeInv (loop s) := by
  unfold loop
  apply updateServos_rangeInv
  split
  · have := processCommand_rangeInv (readSerialData s).inputBuffer _
      (readSerialData_rangeInv s h)
    simpa [RangeInv] using this
  · exact readSerialData_rangeInv s h

theorem feed_rangeInv (bytes : List Char) (s : TurretState) (h : RangeInv s) :
    RangeInv (feed bytes s) := by
  simpa [RangeInv, feed] using h

theorem run_rangeInv : ∀ (trace : List (List Char)) (s : TurretState),
    RangeInv s → RangeInv (run trace s) := by
  intro trace
  induction trace with
  | nil => intro s h; exact h
  | cons chunk rest ih =>
      intro s h
      exact ih _ (loop_rangeInv _ (feed_rangeInv chunk s h))

/-- C4: both axes respect the 0..180 bounds on `current` and `target` in
every state reachable from the homed setup state under any input trace,
and each mutating operation (`processCommand`, `updateServos`,
`moveToPosition`) preserves those bounds. -/
theorem claim4_bounds_invariant :
    (∀ trace : List (List Char), RangeInv (run trace turretSetup)) ∧
    (∀ (c : List Char) (s : TurretState), RangeInv s → RangeInv (processCommand c s)) ∧
    (∀ s : TurretState, RangeInv s → RangeInv (updateServos s)) ∧
    (∀ (p y : Int) (s : TurretState), RangeInv (moveToPosition p y s)) :=
  ⟨fun trace => run_rangeInv trace turretSetup (by decide),
    processCommand_rangeInv, updateServos_rangeInv, moveToPosition_rangeInv⟩

/-- Witness for C4 at concrete inputs. -/
theorem claim4_bounds_invariant_witness :
    RangeInv (run [['4', '5', ',', '1', '3', '5', '\n']] turretSetup) ∧
    RangeInv (updateServos turretSetup) ∧
    RangeInv (processCommand ['2', '5', '0'] turretSetup) :=
  ⟨claim4_bounds_invariant.1 _,
    claim4_bounds_invariant.2.2.1 turretSetup (by decide),
    claim4_bounds_invariant.2.1 ['2', '5', '0'] turretSetup (by decide)⟩

theorem readSerialLoop_nil (buffer : List Char) :
    readSerialLoop [] buffer = ⟨[], buffer, false, []⟩ :=
  rfl

theorem loop_no_input (s : TurretState) (hin : s.serialIn = [])
    (hnd : s.newData = false) : loop s = updateServos s := by
  have hr : readSerialData s = s := by
    cases s
    simp only [readSerialData] at *
    subst hin hnd
    simp [readSerialLoop_nil]
  simp only [loop, hr, hnd]
  simp

theorem loop_iterate_no_input : ∀ (n : Nat) (s : TurretState),
    s.serialIn = [] → s.newData = false → loop^[n] s = updateServos^[n] s := by
  intro n
  induction n with
  | zero => intro s _ _; rfl
  | succ k ih =>
      intro s hin hnd
      rw [Function.iterate_succ_apply, Function.iterate_succ_apply, loop_no_input s hin hnd]
      exact ih _ (by rw [updateServos_serialIn]; exact hin)
        (by rw [updateServos_newData]; exact hnd)

/-- Total remaining error over both axes, the termination measure of the
no-input smoothing iteration. -/
def phi (s : TurretState) : Nat :=
  (s.targetPitch - s.currentPitch).natAbs + (s.targetYaw - s.currentYaw).natAbs

theorem updateServos_fix_or_decrease (s : TurretState) :
    updateServos s = s ∨ phi (updateServos s) + 2 ≤ phi s := by
  by_cases hgP : 1 < (smoothedNext s.currentPitch s.targetPitch - s.currentPitch).natAbs
  · right
    unfold phi
    rw [updateServos_targetPitch, updateServos_targetYaw, updateServos_currentPitch,
      updateServos_currentYaw]
    have h1 := axisStep_decrease s.currentPitch s.targetPitch hgP
    have h2 := axisStep_error_le s.currentYaw s.targetYaw
    omega
  · by_cases hgY : 1 < (smoothedNext s.currentYaw s.targetYaw - s.currentYaw).natAbs
    · right
      unfold phi
      rw [updateServos_targetPitch, updateServos_targetYaw, updateServos_currentPitch,
        updateServos_currentYaw]
      have h1 := axisStep_decrease s.currentYaw s.targetYaw hgY
      have h2 := axisStep_error_le s.currentPitch s.targetPitch
      omega
    · left
      simp only [updateServos]
      rw [if_neg hgP, if_neg hgY]

theorem exists_fix_aux : ∀ (k : Nat) (s : TurretState), phi s ≤ k →
    ∃ n : Nat, updateServos (updateServos^[n] s) = updateServos^[n] s := by
  intro k
  induction k with
  | zero =>
      intro s hs
      rcases updateServos_fix_or_decrease s with h | h
      · exact ⟨0, h⟩
      · omega
  | succ k ih =>
      intro s hs
      rcases updateServos_fix_or_decrease s with h | h
      · exact ⟨0, h⟩
      · obtain ⟨n, hn⟩ := ih (updateServos s) (by omega)
        refine ⟨n + 1, ?_⟩
        rw [Function.iterate_succ_apply]
        exact hn

theorem fix_window (s : TurretState) (h : updateServos s = s) :
    (-5 ≤ s.targetPitch - s.currentPitch ∧ s.targetPitch - s.currentPitch ≤ 9) ∧
    (-5 ≤ s.targetYaw - s.currentYaw ∧ s.targetYaw - s.currentYaw ≤ 9) := by
  have hp : axisStep s.currentPitch s.targetPitch = s.currentPitch := by
    rw [← updateServos_currentPitch, h]
  have hy : axisStep s.currentYaw s.targetYaw = s.currentYaw := by
    rw [← updateServos_currentYaw, h]
  exact ⟨axisStep_window _ _ hp, axisStep_window _ _ hy⟩

/-- C1 (amended): with no further input, after finitely many ticks the
state stops changing entirely (in particular the servo writes stop), but
the residual error is only guaranteed to satisfy
`-5 ≤ target - current ≤ 9` on each axis — up to nine degrees, not the
one-degree jitter deadband the claim states. -/
theorem claim1_amended_convergence (s : TurretState) (hin : s.serialIn = [])
    (hnd : s.newData = false) :
    ∃ n : Nat, (∀ m : Nat, loop^[m + n] s = loop^[n] s) ∧
      -5 ≤ (loop^[n] s).targetPitch - (loop^[n] s).currentPitch ∧
      (loop^[n] s).targetPitch - (loop^[n] s).currentPitch ≤ 9 ∧
      -5 ≤ (loop^[n] s).targetYaw - (loop^[n] s).currentYaw ∧
      (loop^[n] s).targetYaw - (loop^[n] s).currentYaw ≤ 9 := by
  obtain ⟨n, hfix⟩ := exists_fix_aux (phi s) s le_rfl
  have hiter : ∀ m : Nat, loop^[m] s = updateServos^[m] s := fun m =>
    loop_iterate_no_input m s hin hnd
  refine ⟨n, ?_, ?_⟩
  · intro m
    rw [hiter (m + n), hiter n, Function.iterate_add_apply]
    exact Function.iterate_fixed hfix m
  · rw [hiter n]
    obtain ⟨⟨a, b⟩, c, d⟩ := fix_window _ hfix
    exact ⟨a, b, c, d⟩

/-- The state reached from the homed setup state after the host sends
`"120\n"`. -/
def cOneStart : TurretState := run [['1', '2', '0', '\n']] turretSetup

/-- The family of states traversed after the `"120\n"` command: only
`currentYaw` and the recorded yaw writes vary. -/
def cOneState (yaw : Int) (writes : List Int) : TurretState :=
  { currentPitch := 90
    currentYaw := yaw
    targetPitch := 90
    targetYaw := 120
    inputBuffer := []
    newData := false
    serialIn := []
    serialOut := [Diag.bannerReady, Diag.bannerFormat, Diag.bannerPrompt,
      Diag.received ['1', '2', '0'], Diag.settingYaw 120]
    commands := [['1', '2', '0']]
    pitchWrites := [90]
    yawWrites := writes }

set_option maxHeartbeats 1000000 in
theorem cOneStart_eq : cOneStart = cOneState 96 [90, 96] := by decide

/-- Witness for the amended C1 at the concrete post-`"120\n"` state. -/
theorem claim1_amended_convergence_witness :
    ∃ n : Nat, (∀ m : Nat, loop^[m + n] cOneStart = loop^[n] cOneStart) ∧
      -5 ≤ (loop^[n] cOneStart).targetPitch - (loop^[n] cOneStart).currentPitch ∧
      (loop^[n] cOneStart).targetPitch - (loop^[n] cOneStart).currentPitch ≤ 9 ∧
      -5 ≤ (loop^[n] cOneStart).targetYaw - (loop^[n] cOneStart).currentYaw ∧
      (loop^[n] cOneStart).targetYaw - (loop^[n] cOneStart).currentYaw ≤ 9 :=
  claim1_amended_convergence cOneStart (by rw [cOneStart_eq]; rfl)
    (by rw [cOneStart_eq]; rfl)

/-- The six states the firmware passes through after `"120\n"`; the last
one is a fixpoint of `loop`. -/
def cOneTraj : List TurretState :=
  [cOneState 96 [90, 96],
   cOneState 100 [90, 96, 100],
   cOneState 104 [90, 96, 100, 104],
   cOneState 107 [90, 96, 100, 104, 107],
   cOneState 109 [90, 96, 100, 104, 107, 109],
   cOneState 111 [90, 96, 100, 104, 107, 109, 111]]

set_option maxHeartbeats 1000000 in
theorem cOneTraj_closed : ∀ s ∈ cOneTraj, loop s ∈ cOneTraj := by decide

theorem cOneTraj_error : ∀ s ∈ cOneTraj, 1 < (s.targetYaw - s.currentYaw).natAbs := by
  decide

theorem cOneTraj_mem : ∀ n : Nat, loop^[n] cOneStart ∈ cOneTraj := by
  intro n
  induction n with
  | zero =>
      rw [Function.iterate_zero_apply, cOneStart_eq]
      exact List.mem_cons_self _ _
  | succ k ih =>
      rw [Function.iterate_succ_apply']
      exact cOneTraj_closed _ ih

/-- C1 (counterexample): starting homed and fed `"120\n"`, the yaw error
never comes within the one-degree deadband at any later tick: the smoother
sticks at `current = 111` with `target = 120`, nine degrees short, so
`current` never reaches 119 or 120. -/
theorem claim1_counterexample :
    ¬ ∃ n : Nat,
      ((loop^[n] cOneStart).targetYaw - (loop^[n] cOneStart).currentYaw).natAbs ≤ 1 := by
  rintro ⟨n, hn⟩
  have h := cOneTraj_error _ (cOneTraj_mem n)
  omega

/-- C2 (counterexample): the line `"hello"` is not ignored — `toInt`
returns 0 for it and `processCommand` applies that value, so `targetYaw`
drops from 90 to 0. -/
theorem claim2_counterexample :
    (processCommand ['h', 'e', 'l', 'l', 'o'] turretSetup).targetYaw = 0 ∧
    turretSetup.targetYaw = 90 ∧
    (processCommand ['h', 'e', 'l', 'l', 'o'] turretSetup).targetYaw ≠
      turretSetup.targetYaw := by
  decide

/-- C2 (amended): `processCommand` performs no grammar validation.  Every
nonempty trimmed line without a comma — including non-numeric content,
trailing garbage, and the line `"hello"` — sets `targetYaw` to the clamp
of its `toInt`/`atol` value after the `long` → `int` narrowing (0 when no
leading digits), while `targetPitch`, `currentPitch` and `currentYaw` are
unchanged. -/
theorem claim2_amended_no_validation (c : List Char) (s : TurretState)
    (hne : trim c ≠ []) (hnc : indexOf (trim c) ',' = none) :
    (processCommand c s).targetYaw = constrain (wrapInt (toInt (trim c))) YAW_MIN YAW_MAX ∧
    (processCommand c s).targetPitch = s.targetPitch ∧
    (processCommand c s).currentPitch = s.currentPitch ∧
    (processCommand c s).currentYaw = s.currentYaw := by
  simp only [processCommand, hnc]
  rw [if_neg (by simp [List.length_eq_zero, hne])]
  exact ⟨rfl, rfl, rfl, rfl⟩

/-- Witness for the amended C2 at the line `"hello"`. -/
theorem claim2_amended_no_validation_witness :
    (processCommand ['h', 'e', 'l', 'l', 'o'] turretSetup).targetYaw =
        constrain (wrapInt (toInt (trim ['h', 'e', 'l', 'l', 'o']))) YAW_MIN YAW_MAX ∧
    (processCommand ['h', 'e', 'l', 'l', 'o'] turretSetup).targetPitch =
        turretSetup.targetPitch ∧
    (processCommand ['h', 'e', 'l', 'l', 'o'] turretSetup).currentPitch =
        turretSetup.currentPitch ∧
    (processCommand ['h', 'e', 'l', 'l', 'o'] turretSetup).currentYaw =
        turretSetup.currentYaw :=
  claim2_amended_no_validation ['h', 'e', 'l', 'l', 'o'] turretSetup
    (by decide) (by decide)

/-- Forty `'a'` bytes followed by a newline, the over-length input of the
spec's scenario 5. -/
def overlongLine : List Char := List.replicate 40 'a' ++ ['\n']

set_option maxHeartbeats 1000000 in
/-- C3 (counterexample): after the over-length line of forty `'a'`s plus
newline, `targetYaw` *does* change — it becomes 0 — contradicting the
claim that neither target changes. -/
theorem claim3_counterexample :
    (loop (feed overlongLine turretSetup)).targetYaw ≠ turretSetup.targetYaw ∧
    turretSetup.targetYaw = 90 ∧
    (loop (feed overlongLine turretSetup)).targetYaw = 0 := by
  decide

set_option maxHeartbeats 1000000 in
/-- C3 (amended): on the 21st character the buffer is discarded and the
`# Error: Command too long` diagnostic is emitted, but the bytes after the
overflow start a fresh line: the residual nineteen `'a'`s are accepted as
a command, parse to 0 via `toInt`, and set `targetYaw` to 0;
`targetPitch` alone is unchanged. -/
theorem claim3_amended_overflow_tail :
    Diag.cmdTooLong ∈ (loop (feed overlongLine turretSetup)).serialOut ∧
    (loop (feed overlongLine turretSetup)).inputBuffer = [] ∧
    (loop (feed overlongLine turretSetup)).commands = [List.replicate 19 'a'] ∧
    (loop (feed overlongLine turretSetup)).targetPitch = 90 ∧
    (loop (feed overlongLine turretSetup)).targetYaw = 0 := by
  decide

theorem readSerialLoop_rest_eq : ∀ (xs buf : List Char) (t : Char) (rest : List Char),
    (∀ x ∈ xs, (x == '\n' || x == '\r') = false) →
    (t == '\n' || t == '\r') = true →
    (readSerialLoop (xs ++ t :: rest) buf).rest = rest := by
  intro xs
  induction xs with
  | nil =>
      intro buf t rest _ ht
      simp [readSerialLoop, ht]
  | cons x xs ih =>
      intro buf t rest hx ht
      have hxf := hx x (List.mem_cons_self _ _)
      have htail : ∀ y ∈ xs, (y == '\n' || y == '\r') = false := fun y hy =>
        hx y (List.mem_cons_of_mem _ hy)
      simp only [List.cons_append, readSerialLoop, hxf]
      simp only [Bool.false_eq_true, if_false]
      split
      · exact ih [] t rest htail ht
      · exact ih (buf ++ [x]) t rest htail ht

theorem loop_commands_le (u : TurretState) :
    (loop u).commands.length ≤ u.commands.length + 1 := by
  simp only [loop]
  rw [updateServos_commands]
  split
  · simp [readSerialData]
  · simp [readSerialData]

/-- C9: one `readSerialData` call stops at the first line terminator,
leaving everything behind it unconsumed, and every `loop` iteration hands
at most one line to `processCommand`. -/
theorem claim9_one_command_per_tick (s : TurretState) (pre post : List Char) (t : Char)
    (hin : s.serialIn = pre ++ t :: post)
    (hpre : ∀ x ∈ pre, (x == '\n' || x == '\r') = false)
    (ht : (t == '\n' || t == '\r') = true) :
    (readSerialData s).serialIn = post ∧
    ∀ u : TurretState, (loop u).commands.length ≤ u.commands.length + 1 := by
  constructor
  · simp only [readSerialData, hin]
    exact readSerialLoop_rest_eq pre s.inputBuffer t post hpre ht
  · exact loop_commands_le

/-- Witness for C9: with `"12\n34\n"` pending, one drain stops right
after the first newline. -/
theorem claim9_one_command_per_tick_witness :
    (readSerialData { turretSetup with
        serialIn := ['1', '2', '\n', '3', '4', '\n'] }).serialIn = ['3', '4', '\n'] ∧
    ∀ u : TurretState, (loop u).commands.length ≤ u.commands.length + 1 :=
  claim9_one_command_per_tick
    { turretSetup with serialIn := ['1', '2', '\n', '3', '4', '\n'] }
    ['1', '2'] ['3', '4', '\n'] '\n' rfl (by decide) (by decide)

/-- C10: a terminator read while the line buffer is empty is discarded:
`readSerialData` returns at once with no command flagged and with every
byte behind the terminator still pending. -/
theorem claim10_empty_buffer_terminator (s : TurretState) (t : Char) (rest : List Char)
    (hbuf : s.inputBuffer = []) (hin : s.serialIn = t :: rest)
    (ht : (t == '\n' || t == '\r') = true) :
    readSerialData s = { s with serialIn := rest } := by
  cases s
  dsimp only at hbuf hin
  subst hbuf hin
  simp only [readSerialData, readSerialLoop, ht]
  simp

/-- Witness for C10: a CRLF pair with an empty buffer — the CR is
discarded and the LF stays pending for the next iteration. -/
theorem claim10_empty_buffer_terminator_witness :
    readSerialData { turretSetup with serialIn := ['\r', '\n', '9', '0', '\n'] } =
      { { turretSetup with serialIn := ['\r', '\n', '9', '0', '\n'] } with
          serialIn := ['\n', '9', '0', '\n'] } :=
  claim10_empty_buffer_terminator
    { turretSetup with serialIn := ['\r', '\n', '9', '0', '\n'] }
    '\r' ['\n', '9', '0', '\n'] (by decide) rfl (by decide)

/-- The spec's command grammar for one integer field: an optional `'-'`
sign followed by one or more decimal digits. -/
def validInt (l : List Char) : Bool :=
  match l with
  | [] => false
  | c :: rest =>
      if c = '-' then !rest.isEmpty && rest.all Char.isDigit
      else (c :: rest).all Char.isDigit

/-- Value of an unsigned decimal digit string. -/
def decDigits (l : List Char) : Int :=
  l.foldl (fun acc c => acc * 10 + ((c.toNat : Int) - 48)) 0

/-- Mathematical value denoted by a decimal numeral with an optional
leading minus sign. -/
def decToInt : List Char → Int
  | [] => 0
  | c :: rest => if c = '-' then - decDigits rest else decDigits (c :: rest)

theorem readDigits_eq_foldl : ∀ (l : List Char) (acc : Int), l.all Char.isDigit = true →
    readDigits l acc = l.foldl (fun acc c => acc * 10 + ((c.toNat : Int) - 48)) acc := by
  intro l
  induction l with
  | nil => intro acc _; rfl
  | cons c rest ih =>
      intro acc h
      simp only [List.all_cons, Bool.and_eq_true] at h
      simp only [readDigits, h.1, if_true, List.foldl_cons]
      exact ih _ h.2

theorem isDigit_ne (c : Char) (h : c.isDigit = true) (d : Char) (hd : d.isDigit = false) :
    (c == d) = false := by
  rw [beq_eq_false_iff_ne]
  rintro rfl
  rw [h] at hd
  exact Bool.noConfusion hd

theorem isspace_eq_false_of_isDigit (c : Char) (h : c.isDigit = true) :
    isspace c = false := by
  unfold isspace
  rw [isDigit_ne c h ' ' (by decide), isDigit_ne c h '\t' (by decide),
    isDigit_ne c h '\n' (by decide), isDigit_ne c h (Char.ofNat 11) (by decide),
    isDigit_ne c h (Char.ofNat 12) (by decide), isDigit_ne c h '\r' (by decide)]
  rfl

theorem validInt_ne_nil (l : List Char) (h : validInt l = true) : l ≠ [] := by
  intro hl
  subst hl
  exact Bool.noConfusion h

theorem validInt_chars (l : List Char) (h : validInt l = true) :
    ∀ x ∈ l, x = '-' ∨ x.isDigit = true := by
  intro x hx
  cases l with
  | nil => cases hx
  | cons c rest =>
      simp only [validInt] at h
      by_cases hc : c = '-'
      · subst hc
        rw [if_pos rfl, Bool.and_eq_true] at h
        rcases List.mem_cons.mp hx with rfl | hx
        · exact Or.inl rfl
        · exact Or.inr (by
            have := (List.all_eq_true.mp h.2) x hx
            simpa using this)
      · rw [if_neg hc] at h
        exact Or.inr (by
          have := (List.all_eq_true.mp h) x hx
          simpa using this)

theorem validInt_no_space (l : List Char) (h : validInt l = true) :
    ∀ x ∈ l, isspace x = false := by
  intro x hx
  rcases validInt_chars l h x hx with rfl | hd
  · decide
  · exact isspace_eq_false_of_isDigit x hd

theorem validInt_no_comma (l : List Char) (h : validInt l = true) :
    ∀ x ∈ l, (x == ',') = false := by
  intro x hx
  rcases validInt_chars l h x hx with rfl | hd
  · decide
  · exact isDigit_ne x hd ',' (by decide)

theorem validInt_no_term (l : List Char) (h : validInt l = true) :
    ∀ x ∈ l, (x == '\n' || x == '\r') = false := by
  intro x hx
  rcases validInt_chars l h x hx with rfl | hd
  · decide
  · rw [isDigit_ne x hd '\n' (by decide), isDigit_ne x hd '\r' (by decide)]
    rfl

theorem dropWhile_eq_self_of_false (p : Char → Bool) (l : List Char)
    (h : ∀ x ∈ l, p x = false) : l.dropWhile p = l := by
  cases l with
  | nil => rfl
  | cons c rest =>
      rw [List.dropWhile_cons, h c (List.mem_cons_self _ _)]
      simp

theorem trim_eq_self (l : List Char) (h : ∀ x ∈ l, isspace x = false) : trim l = l := by
  unfold trim
  rw [dropWhile_eq_self_of_false _ l h,
    dropWhile_eq_self_of_false _ l.reverse (fun x hx => h x (List.mem_reverse.mp hx)),
    List.reverse_reverse]

theorem indexOfAux_none (ch : Char) : ∀ (l : List Char) (i : Nat),
    (∀ x ∈ l, (x == ch) = false) → indexOfAux ch l i = none := by
  intro l
  induction l with
  | nil => intro i _; rfl
  | cons x xs ih =>
      intro i h
      simp only [indexOfAux, h x (List.mem_cons_self _ _), Bool.false_eq_true, if_false]
      exact ih _ (fun y hy => h y (List.mem_cons_of_mem _ hy))

theorem indexOfAux_found (ch : Char) (l2 : List Char) : ∀ (l1 : List Char) (i : Nat),
    (∀ x ∈ l1, (x == ch) = false) →
    indexOfAux ch (l1 ++ ch :: l2) i = some (i + l1.length) := by
  intro l1
  induction l1 with
  | nil =>
      intro i _
      simp [indexOfAux]
  | cons x xs ih =>
      intro i h
      simp only [List.cons_append, indexOfAux, h x (List.mem_cons_self _ _),
        Bool.false_eq_true, if_false, List.append_eq]
      rw [ih _ (fun y hy => h y (List.mem_cons_of_mem _ hy))]
      simp only [List.length_cons]
      congr 1
      omega

theorem indexOf_append_comma (p y : List Char) (h : ∀ x ∈ p, (x == ',') = false) :
    indexOf (p ++ ',' :: y) ',' = some p.length := by
  unfold indexOf
  rw [indexOfAux_found ',' y p 0 h, Nat.zero_add]

theorem take_len_append (l1 l2 : List Char) : (l1 ++ l2).take l1.length = l1 := by
  induction l1 with
  | nil => rfl
  | cons x xs ih => simp [ih]

theorem drop_len_succ_append (l1 : List Char) (c : Char) (l2 : List Char) :
    (l1 ++ c :: l2).drop (l1.length + 1) = l2 := by
  induction l1 with
  | nil => rfl
  | cons x xs ih => simp only [List.cons_append, List.length_cons, List.drop_succ_cons, ih]

theorem atolSigned_validInt (l : List Char) (h : validInt l = true) :
    atolSigned l = decToInt l := by
  cases l with
  | nil => rfl
  | cons c rest =>
      simp only [atolSigned, decToInt]
      simp only [validInt] at h
      by_cases hc : c = '-'
      · subst hc
        rw [if_pos rfl, if_pos rfl]
        rw [if_pos rfl, Bool.and_eq_true] at h
        rw [readDigits_eq_foldl rest 0 h.2]
        rfl
      · rw [if_neg hc] at h
        have hplus : c ≠ '+' := by
          rintro rfl
          simp only [List.all_cons, Bool.and_eq_true] at h
          exact absurd h.1 (by decide)
        rw [if_neg hc, if_neg hplus, if_neg hc]
        rw [readDigits_eq_foldl (c :: rest) 0 h]
        rfl

theorem toInt_validInt (l : List Char) (h : validInt l = true) :
    toInt l = wrapLong (decToInt l) := by
  unfold toInt
  rw [dropWhile_eq_self_of_false _ l (validInt_no_space l h), atolSigned_validInt l h]

theorem wrapLong_eq_self (n : Int) (h1 : -2147483648 ≤ n) (h2 : n < 2147483648) :
    wrapLong n = n := by
  simp only [wrapLong]
  split <;> omega

theorem wrapInt_eq_self (n : Int) (h1 : -32768 ≤ n) (h2 : n < 32768) :
    wrapInt n = n := by
  simp only [wrapInt]
  split <;> omega

theorem processCommand_single (c : List Char) (s : TurretState) (h : validInt c = true) :
    processCommand c s =
      { s with
        targetYaw := constrain (wrapInt (wrapLong (decToInt c))) YAW_MIN YAW_MAX
        serialOut := s.serialOut ++
          [Diag.received c, Diag.settingYaw (constrain (wrapInt (wrapLong (decToInt c))) YAW_MIN YAW_MAX)] } := by
  have htrim : trim c = c := trim_eq_self _ (validInt_no_space c h)
  have hidx : indexOf c ',' = none := indexOfAux_none ',' c 0 (validInt_no_comma c h)
  have hne : ¬ c.length = 0 := by
    simpa [List.length_eq_zero] using validInt_ne_nil c h
  simp only [processCommand, htrim, hidx]
  rw [if_neg hne, toInt_validInt c h]
  simp

theorem processCommand_dual (p y : List Char) (s : TurretState)
    (hp : validInt p = true) (hy : validInt y = true) :
    processCommand (p ++ ',' :: y) s =
      { s with
        targetPitch := constrain (wrapInt (wrapLong (decToInt p))) PITCH_MIN PITCH_MAX
        targetYaw := constrain (wrapInt (wrapLong (decToInt y))) YAW_MIN YAW_MAX
        serialOut := s.serialOut ++
          [Diag.received (p ++ ',' :: y),
           Diag.settingPitchYaw (constrain (wrapInt (wrapLong (decToInt p))) PITCH_MIN PITCH_MAX)
             (constrain (wrapInt (wrapLong (decToInt y))) YAW_MIN YAW_MAX)] } := by
  have hchars : ∀ x ∈ p ++ ',' :: y, isspace x = false := by
    intro x hx
    rcases List.mem_append.mp hx with hx | hx
    · exact validInt_no_space p hp x hx
    · rcases List.mem_cons.mp hx with rfl | hx
      · decide
      · exact validInt_no_space y hy x hx
  have htrim : trim (p ++ ',' :: y) = p ++ ',' :: y := trim_eq_self _ hchars
  have hidx : indexOf (p ++ ',' :: y) ',' = some p.length :=
    indexOf_append_comma p y (validInt_no_comma p hp)
  have hne : ¬ (p ++ ',' :: y).length = 0 := by simp
  simp only [processCommand, htrim, hidx]
  rw [if_neg hne]
  rw [take_len_append, drop_len_succ_append, toInt_validInt p hp, toInt_validInt y hy]
  simp

/-- C7 (counterexample): the valid line `"33000"` denotes 33000, whose
clamp is 180, but the `long` → 16-bit `int` narrowing wraps it to -32536,
so the firmware sets `targetYaw` to 0 — not to the clamp of `n`. -/
theorem claim7_counterexample :
    validInt ['3', '3', '0', '0', '0'] = true ∧
    decToInt ['3', '3', '0', '0', '0'] = 33000 ∧
    constrain 33000 YAW_MIN YAW_MAX = 180 ∧
    (processCommand ['3', '3', '0', '0', '0'] turretSetup).targetYaw = 0 := by
  decide

/-- C7 (amended): a valid single-integer line `"n"` sets `targetYaw` to
the clamp of `n` after atol's 32-bit wrap and the `long` → `int` 16-bit
narrowing — equal to the clamp of `n` itself whenever `n` fits in a
signed 16-bit `int` — and leaves `targetPitch`, `currentPitch` and
`currentYaw` untouched. -/
theorem claim7_single_axis_yaw_only (c : List Char) (s : TurretState)
    (h : validInt c = true) :
    (processCommand c s).targetYaw =
        constrain (wrapInt (wrapLong (decToInt c))) YAW_MIN YAW_MAX ∧
    (-32768 ≤ decToInt c → decToInt c < 32768 →
      (processCommand c s).targetYaw = constrain (decToInt c) YAW_MIN YAW_MAX) ∧
    (processCommand c s).targetPitch = s.targetPitch ∧
    (processCommand c s).currentPitch = s.currentPitch ∧
    (processCommand c s).currentYaw = s.currentYaw := by
  rw [processCommand_single c s h]
  refine ⟨rfl, ?_, rfl, rfl, rfl⟩
  intro h1 h2
  dsimp only
  rw [wrapLong_eq_self _ (by omega) (by omega), wrapInt_eq_self _ h1 h2]

/-- Witness for the amended C7 at the line `"120"`. -/
theorem claim7_single_axis_yaw_only_witness :
    (processCommand ['1', '2', '0'] turretSetup).targetYaw =
        constrain (wrapInt (wrapLong (decToInt ['1', '2', '0']))) YAW_MIN YAW_MAX ∧
    (-32768 ≤ decToInt ['1', '2', '0'] → decToInt ['1', '2', '0'] < 32768 →
      (processCommand ['1', '2', '0'] turretSetup).targetYaw =
        constrain (decToInt ['1', '2', '0']) YAW_MIN YAW_MAX) ∧
    (processCommand ['1', '2', '0'] turretSetup).targetPitch = turretSetup.targetPitch ∧
    (processCommand ['1', '2', '0'] turretSetup).currentPitch = turretSetup.currentPitch ∧
    (processCommand ['1', '2', '0'] turretSetup).currentYaw = turretSetup.currentYaw :=
  claim7_single_axis_yaw_only ['1', '2', '0'] turretSetup (by decide)

theorem readSerialLoop_line : ∀ (xs buf : List Char) (t : Char) (rest : List Char),
    (∀ x ∈ xs, (x == '\n' || x == '\r') = false) →
    (t == '\n' || t == '\r') = true →
    buf.length + xs.length ≤ 20 →
    readSerialLoop (xs ++ t :: rest) buf =
      ⟨rest, buf ++ xs, decide (0 < (buf ++ xs).length), []⟩ := by
  intro xs
  induction xs with
  | nil =>
      intro buf t rest _ ht _
      simp [readSerialLoop, ht]
  | cons x xs ih =>
      intro buf t rest hx ht hlen
      have hxf := hx x (List.mem_cons_self _ _)
      simp only [List.cons_append, readSerialLoop, hxf, Bool.false_eq_true, if_false,
        List.append_eq]
      rw [if_neg (by
        simp only [List.length_append, List.length_cons, List.length_nil] at hlen ⊢
        omega)]
      rw [ih (buf ++ [x]) t rest (fun y hy => hx y (List.mem_cons_of_mem _ hy)) ht
        (by
          simp only [List.length_append, List.length_cons, List.length_nil] at hlen ⊢
          omega)]
      simp

/-- C6 (amended): a valid `"p,y"` line is parsed in a single
`processCommand` call that sets both targets — each to the clamp of its
field's value after atol's 32-bit wrap and the 16-bit `int` narrowing —
before that iteration's `updateServos` tick: the state the smoother runs
on carries both new targets with the old currents, and both targets
survive the tick, so no tick ever observes only one of the two updates. -/
theorem claim6_dual_axis_atomic (p y : List Char) (s : TurretState)
    (hp : validInt p = true) (hy : validInt y = true)
    (hbuf : s.inputBuffer = []) (hnd : s.newData = false)
    (hin : s.serialIn = p ++ ',' :: (y ++ ['\n']))
    (hlen : p.length + y.length + 1 ≤ 20) :
    ∃ sMid : TurretState,
      loop s = updateServos sMid ∧
      sMid.targetPitch = constrain (wrapInt (wrapLong (decToInt p))) PITCH_MIN PITCH_MAX ∧
      sMid.targetYaw = constrain (wrapInt (wrapLong (decToInt y))) YAW_MIN YAW_MAX ∧
      sMid.currentPitch = s.currentPitch ∧
      sMid.currentYaw = s.currentYaw ∧
      (loop s).targetPitch = constrain (wrapInt (wrapLong (decToInt p))) PITCH_MIN PITCH_MAX ∧
      (loop s).targetYaw = constrain (wrapInt (wrapLong (decToInt y))) YAW_MIN YAW_MAX := by
  have hterm : ∀ x ∈ p ++ ',' :: y, (x == '\n' || x == '\r') = false := by
    intro x hx
    rcases List.mem_append.mp hx with hx | hx
    · exact validInt_no_term p hp x hx
    · rcases List.mem_cons.mp hx with rfl | hx
      · decide
      · exact validInt_no_term y hy x hx
  have hshape : s.serialIn = (p ++ ',' :: y) ++ '\n' :: [] := by
    rw [hin]
    simp
  have hline := readSerialLoop_line (p ++ ',' :: y) [] '\n' [] hterm (by decide)
    (by simp only [List.length_nil, List.length_append, List.length_cons]; omega)
  have hready : decide (0 < (([] : List Char) ++ (p ++ ',' :: y)).length) = true := by
    simp
  have hread : readSerialData s =
      { s with serialIn := [], inputBuffer := p ++ ',' :: y, newData := true } := by
    simp only [readSerialData]
    rw [hshape, hbuf, hline]
    simp [hnd]
  have hmid : loop s = updateServos
      { s with
        targetPitch := constrain (wrapInt (wrapLong (decToInt p))) PITCH_MIN PITCH_MAX
        targetYaw := constrain (wrapInt (wrapLong (decToInt y))) YAW_MIN YAW_MAX
        serialOut := s.serialOut ++
          [Diag.received (p ++ ',' :: y),
           Diag.settingPitchYaw (constrain (wrapInt (wrapLong (decToInt p))) PITCH_MIN PITCH_MAX)
             (constrain (wrapInt (wrapLong (decToInt y))) YAW_MIN YAW_MAX)]
        serialIn := []
        newData := false
        inputBuffer := []
        commands := s.commands ++ [p ++ ',' :: y] } := by
    simp only [loop, hread]
    rw [if_true]
    rw [processCommand_dual p y _ hp hy]
  refine ⟨_, hmid, rfl, rfl, rfl, rfl, ?_, ?_⟩
  · rw [hmid, updateServos_targetPitch]
  · rw [hmid, updateServos_targetYaw]

/-- Witness for C6 at the concrete line `"45,135"` from the homed state. -/
theorem claim6_dual_axis_atomic_witness :
    ∃ sMid : TurretState,
      loop { turretSetup with serialIn := ['4', '5', ',', '1', '3', '5', '\n'] } =
        updateServos sMid ∧
      sMid.targetPitch = constrain (wrapInt (wrapLong (decToInt ['4', '5']))) PITCH_MIN PITCH_MAX ∧
      sMid.targetYaw = constrain (wrapInt (wrapLong (decToInt ['1', '3', '5']))) YAW_MIN YAW_MAX ∧
      sMid.currentPitch =
        TurretState.currentPitch
          { turretSetup with serialIn := ['4', '5', ',', '1', '3', '5', '\n'] } ∧
      sMid.currentYaw =
        TurretState.currentYaw
          { turretSetup with serialIn := ['4', '5', ',', '1', '3', '5', '\n'] } ∧
      (loop { turretSetup with serialIn := ['4', '5', ',', '1', '3', '5', '\n'] }).targetPitch =
        constrain (wrapInt (wrapLong (decToInt ['4', '5']))) PITCH_MIN PITCH_MAX ∧
      (loop { turretSetup with serialIn := ['4', '5', ',', '1', '3', '5', '\n'] }).targetYaw =
        constrain (wrapInt (wrapLong (decToInt ['1', '3', '5']))) YAW_MIN YAW_MAX :=
  claim6_dual_axis_atomic ['4', '5'] ['1', '3', '5']
    { turretSetup with serialIn := ['4', '5', ',', '1', '3', '5', '\n'] }
    (by decide) (by decide) (by decide) (by decide) rfl (by decide)

/-- C6 (counterexample): on the valid dual-axis line `"33000,90"` the
pitch field's clamped value is 180, but the `long` → 16-bit `int`
narrowing wraps 33000 to -32536, so the firmware sets `targetPitch` to 0:
the targets are not updated to their clamped values as the claim states. -/
theorem claim6_counterexample :
    validInt ['3', '3', '0', '0', '0'] = true ∧
    constrain 33000 PITCH_MIN PITCH_MAX = 180 ∧
    (processCommand ['3', '3', '0', '0', '0', ',', '9', '0'] turretSetup).targetPitch = 0 ∧
    (processCommand ['3', '3', '0', '0', '0', ',', '9', '0'] turretSetup).targetYaw = 90 := by
  decide
